import Mathlib

/-!
Verification of the covered-call backtest (src/main.py).

The script is embedded shallowly:

* Dates (pandas Timestamps) are modelled as serial day numbers (days since
  1970-01-01, type ℕ); ordering and `+ pd.Timedelta(days=30)` become ℕ
  ordering and `+ 30`.  `civilFromDays`/`daysFromCivil` implement the
  standard Gregorian conversion (valid for all dates from 1970 on, which
  covers every date the proofs touch).
* Money amounts and prices (floats in the script) are modelled over an
  arbitrary linear ordered field, so the stateful engine is executable over
  ℚ for concrete runs; ℝ instantiates it for the transcendental parts.
* `scipy.stats.norm.cdf` is an external collaborator and enters
  `black_scholes_call` as a function parameter `cdf`.
* The engine (`dayStep`/`simFold`/`runSim`) takes the pricing function as a
  parameter `premium`; the script's composition is `runSim
  (black_scholes_call cdf)`, and the premium is opaque to every control-flow
  and position-bookkeeping fact proved below.
-/

namespace CoveredCall

/-! ## Calendar model (pd.Timestamp arithmetic on serial day numbers) -/

/-- Serial day number → (year, month, day), Gregorian civil calendar
(Hinnant's algorithm specialised to ℕ; exact for dates from 1970 on, where
every intermediate subtraction is non-negative). -/
def civilFromDays (z : ℕ) : ℕ × ℕ × ℕ :=
  let zd := z + 719468
  let era := zd / 146097
  let doe := zd % 146097
  let yoe := (doe - doe / 1460 + doe / 36524 - doe / 146096) / 365
  let y := yoe + era * 400
  let doy := doe - (365 * yoe + yoe / 4 - yoe / 100)
  let mp := (5 * doy + 2) / 153
  let d := doy - (153 * mp + 2) / 5 + 1
  let m := if mp < 10 then mp + 3 else mp - 9
  (if m ≤ 2 then y + 1 else y, m, d)

/-- Civil (year, month, day) → serial day number (inverse of
`civilFromDays` on the post-1970 range used here). -/
def daysFromCivil (y m d : ℕ) : ℕ :=
  let yy := if m ≤ 2 then y - 1 else y
  let era := yy / 400
  let yoe := yy - era * 400
  let mp := if 2 < m then m - 3 else m + 9
  let doy := (153 * mp + 2) / 5 + d - 1
  let doe := yoe * 365 + yoe / 4 - yoe / 100 + doy
  era * 146097 + doe - 719468

/-- The serial day number of the first calendar day of the month a given
day belongs to (the `MS` resample label of that day's month). -/
def monthStart (t : ℕ) : ℕ :=
  let c := civilFromDays t
  daysFromCivil c.1 c.2.1 1

/-- src/main.py line 62: `monthly_dates = data_df.resample('MS').first().index`.
`resample('MS')` labels every bin by the calendar month start.  The script
only ever tests membership `current_date in monthly_dates` for dates of the
index itself (line 104), and for such dates membership in the resample
labels is equivalent to membership in the month-start images of the index
dates, which is what this definition computes. -/
def monthly_dates (idx : List ℕ) : List ℕ :=
  (idx.map monthStart).dedup

/-! ## Position book and simulation engine state (src/main.py lines 69-117) -/

/-- An open short-call obligation: the dict
`{'expiration_date': current_date + pd.Timedelta(days=30), 'K': K}`
appended at src/main.py line 111. -/
structure Pos (α : Type) where
  expiration_date : ℕ
  K : α
deriving DecidableEq, Repr

/-- The mutable engine state: the module-level accumulators `cash`,
`shares` and the running list `positions` of src/main.py lines 69-73. -/
structure SimState (α : Type) where
  cash : α
  shares : α
  positions : List (Pos α)
deriving DecidableEq, Repr

section Engine

variable {α : Type} [LinearOrderedField α]

/-- src/main.py line 76: `risk_free_rate = 0.01`. -/
def risk_free_rate : α := 0.01

/-- src/main.py line 77: `shares_per_contract = 100`. -/
def shares_per_contract : α := 100

/-- src/main.py line 53: `window_size = 30`. -/
def window_size : ℕ := 30

/-- Initial state, src/main.py lines 69-70: `cash = 0`, `shares = 0`,
`positions = []`. -/
def initState : SimState α := ⟨0, 0, []⟩

/-- The cash/shares mutation of the expiration loop, src/main.py lines
88-96: iterating over `positions` in order, each position that is due
(`current_date >= pos['expiration_date']`) and in the money (`S > K`)
executes `cash += shares * K; shares = 0` with the running values of
`cash` and `shares`. -/
def resolveUpdate (current_date : ℕ) (S : α) : α × α → List (Pos α) → α × α
  | cs, [] => cs
  | cs, p :: ps =>
      if current_date ≥ p.expiration_date ∧ S > p.K then
        resolveUpdate current_date S (cs.1 + cs.2 * p.K, 0) ps
      else
        resolveUpdate current_date S cs ps

/-- One full expiration-resolution pass, src/main.py lines 87-101: the
cash/shares fold above, the collection `positions_to_remove` of every due
position, and the removal loop `for pos in positions_to_remove:
positions.remove(pos)`.  Python's `list.remove` deletes the first
occurrence equal to its argument, and deleting each element of a sublist in
order is exactly `List.diff`. -/
def resolveStep (current_date : ℕ) (S : α) (st : SimState α) : SimState α :=
  let cs := resolveUpdate current_date S (st.cash, st.shares) st.positions
  let positions_to_remove :=
    st.positions.filter (fun p => decide (current_date ≥ p.expiration_date))
  ⟨cs.1, cs.2, st.positions.diff positions_to_remove⟩

/-- The monthly roll branch, src/main.py lines 103-117: on membership of
the day in `monthly_dates`, buy `shares_per_contract` shares if flat
(`shares = shares_per_contract; cash -= shares * S`), then write a call
with `T = 30/252`, `K = S * 1.05`, premium `premium(S, K, T,
risk_free_rate, sigma) * shares_per_contract`, expiring 30 calendar days
out. -/
def rollStep (premium : α → α → α → α → α → α) (monthly : List ℕ)
    (current_date : ℕ) (S sigma : α) (st : SimState α) : SimState α :=
  if current_date ∈ monthly then
    let st1 :=
      if st.shares = 0 then
        { st with shares := shares_per_contract,
                  cash := st.cash - shares_per_contract * S }
      else st
    let T : α := 30 / 252
    let K : α := S * 1.05
    let call_premium := premium S K T risk_free_rate sigma * shares_per_contract
    { st1 with positions := st1.positions ++ [⟨current_date + 30, K⟩],
               cash := st1.cash + call_premium }
  else st

/-- One iteration of the day loop, src/main.py lines 79-117, on a row
`(current_date, S, sigma)` of the post-warm-up frame: record
`portfolio_val = cash + shares * S` first (lines 82-85), then resolve
expirations (lines 87-101), then the roll branch (lines 103-117). -/
def dayStep (premium : α → α → α → α → α → α) (monthly : List ℕ)
    (acc : SimState α × List (ℕ × α)) (row : ℕ × α × α) :
    SimState α × List (ℕ × α) :=
  let current_date := row.1
  let S := row.2.1
  let sigma := row.2.2
  let portfolio_val := acc.1.cash + acc.1.shares * S
  let st1 := resolveStep current_date S acc.1
  let st2 := rollStep premium monthly current_date S sigma st1
  (st2, acc.2 ++ [(current_date, portfolio_val)])

/-- The day loop folded over a row list, from a given state/output pair. -/
def simFold (premium : α → α → α → α → α → α) (monthly : List ℕ)
    (acc : SimState α × List (ℕ × α)) (rows : List (ℕ × α × α)) :
    SimState α × List (ℕ × α) :=
  rows.foldl (dayStep premium monthly) acc

/-- The whole simulation, src/main.py lines 62-117: precompute
`monthly_dates` from the frame's index, start from `cash = 0`, `shares =
0`, `positions = []`, empty output, and run the day loop over every row.
Returns the final state together with the recorded
`(date, portfolio_value)` series. -/
def runSim (premium : α → α → α → α → α → α) (rows : List (ℕ × α × α)) :
    SimState α × List (ℕ × α) :=
  simFold premium (monthly_dates (rows.map (fun x => x.1))) (initState, []) rows

end Engine

/-! ## Roll-date sets (for comparing src/main.py line 104 with the spec) -/

/-- The days of a trading-day index on which the roll branch of
src/main.py line 104 fires: members of the index that also belong to
`monthly_dates`. -/
def roll_dates (idx : List ℕ) : List ℕ :=
  idx.filter (fun t => decide (t ∈ monthly_dates idx))

/-- Modelled from the spec: the first trading day of each calendar month,
determined against the trading-day sequence itself — a member of the index
no other same-month member precedes. -/
def firstTradingDays (idx : List ℕ) : List ℕ :=
  idx.filter (fun t => decide (∀ s ∈ idx, monthStart s = monthStart t → t ≤ s))

/-! ## Option pricer (src/main.py lines 14-31) -/

/-- src/main.py lines 14-31, `black_scholes_call(S, K, T, r, sigma)`:
`d1 = (np.log(S / K) + (r + 0.5 * sigma ** 2) * T) / (sigma * np.sqrt(T))`,
`d2 = d1 - sigma * np.sqrt(T)`,
`call_price = S * norm.cdf(d1) - K * np.exp(-r * T) * norm.cdf(d2)`.
`norm.cdf` (scipy) is the parameter `cdf`. -/
noncomputable def black_scholes_call (cdf : ℝ → ℝ) (S K T r sigma : ℝ) : ℝ :=
  let d1 := (Real.log (S / K) + (r + 0.5 * sigma ^ 2) * T) / (sigma * Real.sqrt T)
  let d2 := d1 - sigma * Real.sqrt T
  S * cdf d1 - K * Real.exp (-r * T) * cdf d2

/-- Modelled from the spec's formula text (section 4.2): `d1 = (ln(S/K) +
(r + 0.5*sigma^2)*T) / (sigma*sqrt(T))`, `d2 = d1 - sigma*sqrt(T)`,
`premium = S*Phi(d1) - K*e^(-rT)*Phi(d2)`, with Phi the standard normal
CDF (the same external `cdf`). -/
noncomputable def bs_spec_formula (cdf : ℝ → ℝ) (S K T r sigma : ℝ) : ℝ :=
  let d1 := (Real.log (S / K) + (r + 0.5 * sigma ^ 2) * T) / (sigma * Real.sqrt T)
  let d2 := d1 - sigma * Real.sqrt T
  S * cdf d1 - K * Real.exp (-(r * T)) * cdf d2

/-! ## Volatility estimator (src/main.py lines 46-57) -/

/-- src/main.py line 51: `Returns = np.log(Price / Price.shift(1))` — the
log-return between consecutive prices; the first entry (NaN in pandas) is
simply absent here. -/
noncomputable def logReturns (ps : List ℝ) : List ℝ :=
  (ps.zip ps.tail).map (fun q => Real.log (q.2 / q.1))

/-- Sample standard deviation with ddof = 1, the pandas
`rolling(...).std()` convention. -/
noncomputable def sampleStd (xs : List ℝ) : ℝ :=
  let n : ℝ := xs.length
  let mean := xs.sum / n
  Real.sqrt (((xs.map (fun x => (x - mean) ^ 2)).sum) / (n - 1))

/-- All full windows of length `W` of a list, in order (the windows the
pandas rolling computation evaluates on; shorter trailing suffixes yield
NaN in pandas and are absent here). -/
def slidings (W : ℕ) : List ℝ → List (List ℝ)
  | [] => []
  | x :: xs =>
      if W ≤ xs.length + 1 then ((x :: xs).take W) :: slidings W xs else []

/-- src/main.py lines 46-57 composed: the data frame rows that survive
`dropna`, as `(date, price, volatility)` triples.  Row `i` of the price
series (0-based) survives exactly when `i ≥ W`: its return needs row
`i - 1` and its rolling window needs the `W` returns at rows
`i - W + 1 .. i`.  Its volatility is
`std(returns over that window) * sqrt(252)` (line 55). -/
noncomputable def simInput (W : ℕ) (prices : List (ℕ × ℝ)) : List (ℕ × ℝ × ℝ) :=
  let rets := logReturns (prices.map (fun x => x.2))
  let vols := (slidings W rets).map (fun w => sampleStd w * Real.sqrt 252)
  ((prices.drop W).zip vols).map (fun x => (x.1.1, x.1.2, x.2))

/-! ## Performance metrics (src/main.py lines 147-158) -/

/-- src/main.py lines 154-158:
`years = days / 365.25`;
`annualized = (1 + total_return) ** (1 / years) - 1`.
`days` is a Python int and `years` a Python float, so `1 / years` raises
`ZeroDivisionError` when `years == 0`; that raised, uncaught exception is
the `Except.error` branch.  `365.25` is exactly representable, so
`years == 0` exactly when `days = 0`. -/
noncomputable def annualized_return (total_return : ℝ) (days : ℤ) : Except String ℝ :=
  let years : ℚ := (days : ℚ) / (365.25 : ℚ)
  if years = 0 then Except.error ("ZeroDivisionError: float division by zero")
  else Except.ok ((1 + total_return) ^ (((1 / years : ℚ) : ℝ)) - 1)

/-- A 32-day constant price series (2021-01-02 .. 2021-02-02, prices all
100): long enough for one post-warm-up roll date (2021-02-01, serial
18659) with a rolling volatility of exactly 0. -/
noncomputable def constPrices : List (ℕ × ℝ) :=
  (List.range 32).map (fun i => (18629 + i, (100 : ℝ)))

/-! ## Invariant used for the single-obligation analysis -/

/-- The strengthened invariant carried through the day loop: the position
list is empty, or holds a single obligation whose expiration is at most
every upcoming roll date (so it is resolved before the next call is
written). -/
def PosInv (monthly : List ℕ) (rest : List (ℕ × α × α)) (ps : List (Pos α)) : Prop :=
  ps = [] ∨ ∃ p, ps = [p] ∧ ∀ q ∈ rest, q.1 ∈ monthly → p.expiration_date ≤ q.1

/-! ## Theorems -/

section Lemmas

variable {α : Type} [LinearOrderedField α]
variable {β : Type} [DecidableEq β]

/-- Erasing, one by one, elements that all satisfy `q` passes over a head
that does not satisfy `q`. -/
theorem diff_cons_of_all (q : β → Bool) :
    ∀ (rem : List β) (x : β) (xs : List β), (∀ y ∈ rem, q y = true) → q x = false →
      (x :: xs).diff rem = x :: xs.diff rem := by
  intro rem
  induction rem with
  | nil => intro x xs _ _; simp [List.diff]
  | cons y rem ih =>
      intro x xs hall hx
      have hy : q y = true := hall y (List.mem_cons_self y rem)
      have hxy : x ≠ y := by
        intro h
        rw [h, hy] at hx
        exact Bool.noConfusion hx
      rw [List.diff_cons, List.diff_cons, List.erase_cons_tail (by simp [hxy]),
        ih x (xs.erase y) (fun z hz => hall z (List.mem_cons_of_mem y hz)) hx]

/-- Removing from a list, first occurrence by first occurrence, exactly the
members that satisfy `q` leaves exactly the members that do not. -/
theorem diff_self_filter (q : β → Bool) :
    ∀ l : List β, l.diff (l.filter q) = l.filter (fun x => !(q x)) := by
  intro l
  induction l with
  | nil => simp
  | cons x xs ih =>
      by_cases hx : q x
      · rw [List.filter_cons_of_pos hx, List.diff_cons, List.erase_cons_head, ih,
          List.filter_cons_of_neg (by simp [hx])]
      · have hx' : q x = false := by simpa using hx
        rw [List.filter_cons_of_neg (by simp [hx']),
          diff_cons_of_all q (xs.filter q) x xs (fun y hy => (List.mem_filter.mp hy).2) hx',
          ih, List.filter_cons_of_pos (by simp [hx'])]

/-- The expiration pass removes exactly the due obligations: what remains
is the sublist of obligations whose expiration is still in the future. -/
theorem resolveStep_positions (current_date : ℕ) (S : α) (st : SimState α) :
    (resolveStep current_date S st).positions
      = st.positions.filter (fun p => decide (current_date < p.expiration_date)) := by
  show st.positions.diff
      (st.positions.filter (fun p => decide (current_date ≥ p.expiration_date)))
    = st.positions.filter (fun p => decide (current_date < p.expiration_date))
  rw [diff_self_filter]
  apply List.filter_congr
  intro p _
  rw [← decide_not, decide_eq_decide]
  omega

/-- If no obligation is both due and in the money, the cash/shares fold of
the expiration pass changes nothing. -/
theorem resolveUpdate_id (current_date : ℕ) (S : α) :
    ∀ (ps : List (Pos α)) (cs : α × α),
      (∀ p ∈ ps, ¬(current_date ≥ p.expiration_date ∧ S > p.K)) →
      resolveUpdate current_date S cs ps = cs := by
  intro ps
  induction ps with
  | nil => intro cs _; rfl
  | cons p ps ih =>
      intro cs h
      rw [resolveUpdate, if_neg (h p (List.mem_cons_self p ps))]
      exact ih cs (fun y hy => h y (List.mem_cons_of_mem p hy))

/-- The cash/shares fold either leaves the share count unchanged or zeroes
it. -/
theorem resolveUpdate_snd (current_date : ℕ) (S : α) :
    ∀ (ps : List (Pos α)) (cs : α × α),
      (resolveUpdate current_date S cs ps).2 = cs.2 ∨
      (resolveUpdate current_date S cs ps).2 = 0 := by
  intro ps
  induction ps with
  | nil => intro cs; left; rfl
  | cons p ps ih =>
      intro cs
      rw [resolveUpdate]
      by_cases h : current_date ≥ p.expiration_date ∧ S > p.K
      · rw [if_pos h]
        rcases ih (cs.1 + cs.2 * p.K, 0) with h2 | h2
        · right; exact h2
        · right; exact h2
      · rw [if_neg h]; exact ih cs

/-- The roll branch appends one fresh obligation (struck at `S * 1.05`,
expiring 30 days out) on a roll date and does nothing otherwise. -/
theorem rollStep_positions (premium : α → α → α → α → α → α) (monthly : List ℕ)
    (current_date : ℕ) (S sigma : α) (st : SimState α) :
    (rollStep premium monthly current_date S sigma st).positions
      = if current_date ∈ monthly then st.positions ++ [⟨current_date + 30, S * 1.05⟩]
        else st.positions := by
  by_cases hm : current_date ∈ monthly <;> by_cases hs : st.shares = 0 <;>
    simp [rollStep, hm, hs]

/-- The roll branch either keeps the share count or sets it to
`shares_per_contract`. -/
theorem rollStep_shares (premium : α → α → α → α → α → α) (monthly : List ℕ)
    (current_date : ℕ) (S sigma : α) (st : SimState α) :
    (rollStep premium monthly current_date S sigma st).shares = st.shares ∨
    (rollStep premium monthly current_date S sigma st).shares = shares_per_contract := by
  by_cases hm : current_date ∈ monthly <;> by_cases hs : st.shares = 0 <;>
    simp [rollStep, hm, hs]

/-- Folding over no rows returns the accumulator. -/
theorem simFold_nil (premium : α → α → α → α → α → α) (monthly : List ℕ)
    (acc : SimState α × List (ℕ × α)) : simFold premium monthly acc [] = acc := rfl

/-- Folding over a row list processes the head first. -/
theorem simFold_cons (premium : α → α → α → α → α → α) (monthly : List ℕ)
    (acc : SimState α × List (ℕ × α)) (r : ℕ × α × α) (rest : List (ℕ × α × α)) :
    simFold premium monthly acc (r :: rest)
      = simFold premium monthly (dayStep premium monthly acc r) rest := rfl

/-- The recorded output only ever grows by appending: running from an
arbitrary already-recorded list gives the same final state, and the same
samples appended after the existing ones. -/
theorem simFold_out (premium : α → α → α → α → α → α) (monthly : List ℕ) :
    ∀ (rows : List (ℕ × α × α)) (st : SimState α) (out : List (ℕ × α)),
      (simFold premium monthly (st, out) rows).1
        = (simFold premium monthly (st, []) rows).1 ∧
      (simFold premium monthly (st, out) rows).2
        = out ++ (simFold premium monthly (st, []) rows).2 := by
  intro rows
  induction rows with
  | nil => intro st out; rw [simFold_nil, simFold_nil]; exact ⟨rfl, by simp⟩
  | cons r rest ih =>
      intro st out
      rw [simFold_cons, simFold_cons]
      have e1 : dayStep premium monthly (st, out) r
          = ((dayStep premium monthly (st, ([] : List (ℕ × α))) r).1,
             out ++ [(r.1, st.cash + st.shares * r.2.1)]) := rfl
      have e2 : dayStep premium monthly (st, ([] : List (ℕ × α))) r
          = ((dayStep premium monthly (st, ([] : List (ℕ × α))) r).1,
             [(r.1, st.cash + st.shares * r.2.1)]) := rfl
      rw [e1, e2]
      obtain ⟨ih1, ih2⟩ := ih (dayStep premium monthly (st, ([] : List (ℕ × α))) r).1
        (out ++ [(r.1, st.cash + st.shares * r.2.1)])
      obtain ⟨jh1, jh2⟩ := ih (dayStep premium monthly (st, ([] : List (ℕ × α))) r).1
        [(r.1, st.cash + st.shares * r.2.1)]
      constructor
      · rw [ih1, jh1]
      · rw [ih2, jh2, List.append_assoc]

/-- The `i`-th recorded sample carries the `i`-th date and marks the state
reached after processing only the first `i` rows — the state as of the
start of day `i`, before that day's resolution and roll — at day `i`'s
price. -/
theorem simFold_get_sample (premium : α → α → α → α → α → α) (monthly : List ℕ) :
    ∀ (rows : List (ℕ × α × α)) (st : SimState α) (i : ℕ) (h : i < rows.length),
      (simFold premium monthly (st, ([] : List (ℕ × α))) rows).2.get? i
        = some ((rows.get ⟨i, h⟩).1,
            (simFold premium monthly (st, ([] : List (ℕ × α))) (rows.take i)).1.cash
            + (simFold premium monthly (st, ([] : List (ℕ × α))) (rows.take i)).1.shares
              * (rows.get ⟨i, h⟩).2.1) := by
  intro rows
  induction rows with
  | nil => intro st i h; exact absurd h (by simp)
  | cons r rest ih =>
      intro st i h
      rw [simFold_cons]
      have e2 : dayStep premium monthly (st, ([] : List (ℕ × α))) r
          = ((dayStep premium monthly (st, ([] : List (ℕ × α))) r).1,
             [(r.1, st.cash + st.shares * r.2.1)]) := rfl
      rw [e2]
      obtain ⟨_, h2⟩ := simFold_out premium monthly rest
        (dayStep premium monthly (st, ([] : List (ℕ × α))) r).1
        [(r.1, st.cash + st.shares * r.2.1)]
      cases i with
      | zero =>
          rw [h2]
          simp [simFold_nil]
      | succ n =>
          rw [h2]
          have hn : n < rest.length := by simpa using h
          show ((r.1, st.cash + st.shares * r.2.1)
              :: (simFold premium monthly
                  ((dayStep premium monthly (st, ([] : List (ℕ × α))) r).1,
                    ([] : List (ℕ × α))) rest).2).get? (n + 1) = _
          rw [List.get?_cons_succ,
            ih (dayStep premium monthly (st, ([] : List (ℕ × α))) r).1 n hn,
            List.take_succ_cons, simFold_cons, e2,
            (simFold_out premium monthly (rest.take n)
              (dayStep premium monthly (st, ([] : List (ℕ × α))) r).1
              [(r.1, st.cash + st.shares * r.2.1)]).1]
          simp

/-- One day of the loop preserves the strengthened single-obligation
invariant, provided every upcoming roll date is at least 30 days after the
current day when the current day is itself a roll date. -/
theorem posInv_step (premium : α → α → α → α → α → α) (monthly : List ℕ)
    (r : ℕ × α × α) (rest : List (ℕ × α × α)) (acc : SimState α × List (ℕ × α))
    (hspace : r.1 ∈ monthly → ∀ q ∈ rest, q.1 ∈ monthly → r.1 + 30 ≤ q.1)
    (hinv : PosInv monthly (r :: rest) acc.1.positions) :
    PosInv monthly rest (dayStep premium monthly acc r).1.positions := by
  have hpos : (dayStep premium monthly acc r).1.positions
      = if r.1 ∈ monthly then
          (acc.1.positions.filter (fun p => decide (r.1 < p.expiration_date)))
            ++ [⟨r.1 + 30, r.2.1 * 1.05⟩]
        else acc.1.positions.filter (fun p => decide (r.1 < p.expiration_date)) := by
    show (rollStep premium monthly r.1 r.2.1 r.2.2 (resolveStep r.1 r.2.1 acc.1)).positions = _
    rw [rollStep_positions, resolveStep_positions]
  by_cases hm : r.1 ∈ monthly
  · rw [hpos, if_pos hm]
    have hemp : acc.1.positions.filter (fun p => decide (r.1 < p.expiration_date)) = [] := by
      rcases hinv with h | ⟨p, hp, hb⟩
      · rw [h]; rfl
      · rw [hp]
        have hle : p.expiration_date ≤ r.1 := hb r (List.mem_cons_self r rest) hm
        have hf : (decide (r.1 < p.expiration_date)) = false := by
          simp only [decide_eq_false_iff_not]
          omega
        simp [hf]
    rw [hemp]
    right
    refine ⟨⟨r.1 + 30, r.2.1 * 1.05⟩, rfl, fun q hq hqm => hspace hm q hq hqm⟩
  · rw [hpos, if_neg hm]
    rcases hinv with h | ⟨p, hp, hb⟩
    · left; rw [h]; rfl
    · rw [hp]
      by_cases hd : r.1 < p.expiration_date
      · right
        exact ⟨p, by simp [hd], fun q hq hqm => hb q (List.mem_cons_of_mem r hq) hqm⟩
      · left; simp [hd]

/-- The strengthened invariant propagated through the whole day loop: if
roll dates among the rows are pairwise at least 30 days apart and the rows
are in strictly increasing date order, the final position list has at most
one entry. -/
theorem posInv_fold (premium : α → α → α → α → α → α) (monthly : List ℕ) :
    ∀ (rows : List (ℕ × α × α)) (acc : SimState α × List (ℕ × α)),
      (∀ a ∈ rows, ∀ b ∈ rows, a.1 ∈ monthly → b.1 ∈ monthly → a.1 < b.1 → a.1 + 30 ≤ b.1) →
      List.Pairwise (fun a b => a.1 < b.1) rows →
      PosInv monthly rows acc.1.positions →
      (simFold premium monthly acc rows).1.positions.length ≤ 1 := by
  intro rows
  induction rows with
  | nil =>
      intro acc _ _ hinv
      rcases hinv with h | ⟨p, hp, _⟩
      · rw [simFold_nil, h]; simp
      · rw [simFold_nil, hp]; simp
  | cons r rest ih =>
      intro acc hspace hsort hinv
      rw [simFold_cons]
      have hstep : PosInv monthly rest (dayStep premium monthly acc r).1.positions :=
        posInv_step premium monthly r rest acc
          (fun hm q hq hqm =>
            hspace r (List.mem_cons_self r rest) q (List.mem_cons_of_mem r hq) hm hqm
              ((List.pairwise_cons.mp hsort).1 q hq))
          hinv
      exact ih (dayStep premium monthly acc r)
        (fun a ha b hb => hspace a (List.mem_cons_of_mem r ha) b (List.mem_cons_of_mem r hb))
        (List.pairwise_cons.mp hsort).2 hstep

/-- One day of the loop keeps the share count in `{0, shares_per_contract}`. -/
theorem dayStep_shares_inv (premium : α → α → α → α → α → α) (monthly : List ℕ)
    (acc : SimState α × List (ℕ × α)) (row : ℕ × α × α)
    (h : acc.1.shares = 0 ∨ acc.1.shares = shares_per_contract) :
    (dayStep premium monthly acc row).1.shares = 0 ∨
    (dayStep premium monthly acc row).1.shares = shares_per_contract := by
  have heq : (dayStep premium monthly acc row).1
      = rollStep premium monthly row.1 row.2.1 row.2.2 (resolveStep row.1 row.2.1 acc.1) := rfl
  rw [heq]
  have h1 : (resolveStep row.1 row.2.1 acc.1).shares = acc.1.shares ∨
      (resolveStep row.1 row.2.1 acc.1).shares = 0 :=
    resolveUpdate_snd row.1 row.2.1 acc.1.positions (acc.1.cash, acc.1.shares)
  rcases rollStep_shares premium monthly row.1 row.2.1 row.2.2
      (resolveStep row.1 row.2.1 acc.1) with h2 | h2
  · rw [h2]
    rcases h1 with h1 | h1
    · rw [h1]; exact h
    · left; exact h1
  · right; exact h2

/-- The whole day loop keeps the share count in `{0, shares_per_contract}`. -/
theorem simFold_shares_inv (premium : α → α → α → α → α → α) (monthly : List ℕ) :
    ∀ (rows : List (ℕ × α × α)) (acc : SimState α × List (ℕ × α)),
      acc.1.shares = 0 ∨ acc.1.shares = shares_per_contract →
      (simFold premium monthly acc rows).1.shares = 0 ∨
      (simFold premium monthly acc rows).1.shares = shares_per_contract := by
  intro rows
  induction rows with
  | nil => intro acc h; rw [simFold_nil]; exact h
  | cons r rest ih =>
      intro acc h
      rw [simFold_cons]
      exact ih (dayStep premium monthly acc r) (dayStep_shares_inv premium monthly acc r h)

/-- Zipping two constant lists gives a constant list of pairs. -/
theorem zip_replicate_min {γ δ : Type} (a : γ) (b : δ) :
    ∀ n m : ℕ, (List.replicate n a).zip (List.replicate m b)
      = List.replicate (min n m) (a, b) := by
  intro n
  induction n with
  | zero => intro m; simp
  | succ n ih =>
      intro m
      cases m with
      | zero => simp
      | succ m =>
          rw [List.replicate_succ, List.replicate_succ, List.zip_cons_cons, ih,
            Nat.succ_min_succ, List.replicate_succ]

/-- All full `W`-windows of a constant list are the constant `W`-window. -/
theorem slidings_replicate (W : ℕ) (hW : 0 < W) (a : ℝ) :
    ∀ n : ℕ, slidings W (List.replicate n a)
      = List.replicate (n + 1 - W) (List.replicate W a) := by
  intro n
  induction n with
  | zero =>
      show slidings W [] = _
      rw [slidings]
      have h0 : 0 + 1 - W = 0 := by omega
      rw [h0, List.replicate_zero]
  | succ n ih =>
      rw [List.replicate_succ, slidings]
      by_cases hc : W ≤ (List.replicate n a).length + 1
      · rw [if_pos hc, ← List.replicate_succ, List.take_replicate, ih]
        rw [List.length_replicate] at hc
        have hmin : min W (n + 1) = W := by omega
        have hsucc : n + 1 + 1 - W = (n + 1 - W) + 1 := by omega
        rw [hmin, hsucc, List.replicate_succ]
      · rw [if_neg hc]
        rw [List.length_replicate] at hc
        have h0 : n + 1 + 1 - W = 0 := by omega
        rw [h0, List.replicate_zero]

/-- The sample standard deviation of an all-zero window is 0. -/
theorem sampleStd_replicate_zero (n : ℕ) : sampleStd (List.replicate n (0 : ℝ)) = 0 := by
  simp [sampleStd, List.sum_replicate, List.map_replicate]

/-- One log-return per consecutive pair of prices. -/
theorem logReturns_length (ps : List ℝ) : (logReturns ps).length = ps.length - 1 := by
  unfold logReturns
  rw [List.length_map, List.length_zip, List.length_tail]
  omega

/-- A list of length `n` has `n + 1 - W` full windows of length `W ≥ 1`. -/
theorem slidings_length (W : ℕ) (hW : 0 < W) :
    ∀ xs : List ℝ, (slidings W xs).length = xs.length + 1 - W := by
  intro xs
  induction xs with
  | nil => simp only [slidings, List.length_nil]; omega
  | cons x xs ih =>
      rw [slidings]
      by_cases hc : W ≤ xs.length + 1
      · rw [if_pos hc]
        simp only [List.length_cons, ih]
        omega
      · rw [if_neg hc]
        simp only [List.length_nil, List.length_cons]
        omega

end Lemmas

/-- C1 (counterexample): the at-most-one-open-obligation invariant fails on
the code.  Trading days 2022-02-01 (serial 19024) and 2022-03-01 (serial
19052) are both calendar month starts, so both are roll dates; the first
call expires 2022-03-03 (19054), after the second roll date, so after the
second day's resolution and roll steps two obligations are open at once. -/
theorem two_obligations_counterexample :
    ((runSim (fun _ _ _ _ _ => (0 : ℚ)) [(19024, 100, 1), (19052, 100, 1)]).1.positions.length)
      = 2 := by
  decide

/-- C1 (amended): after each day's resolution and roll steps at most one
obligation is open, provided any two roll dates of the run lie at least 30
days apart.  (The unconditional claim fails: a 28- or 29-day gap between
consecutive roll dates — February — lets a second call be written while
the first is still open, see the counterexample.)  States after processing
any prefix `p` of the rows are covered. -/
theorem at_most_one_obligation_of_spaced_rolls {α : Type} [LinearOrderedField α]
    (premium : α → α → α → α → α → α)
    (rows p s : List (ℕ × α × α)) (hps : rows = p ++ s)
    (hsort : List.Pairwise (fun a b => a.1 < b.1) rows)
    (hspace : ∀ a ∈ rows, ∀ b ∈ rows,
      a.1 ∈ monthly_dates (rows.map (fun x => x.1)) →
      b.1 ∈ monthly_dates (rows.map (fun x => x.1)) →
      a.1 < b.1 → a.1 + 30 ≤ b.1) :
    (simFold premium (monthly_dates (rows.map (fun x => x.1)))
      (initState, ([] : List (ℕ × α))) p).1.positions.length ≤ 1 := by
  subst hps
  apply posInv_fold
  · intro a ha b hb
    exact hspace a (List.mem_append_left s ha) b (List.mem_append_left s hb)
  · exact (List.pairwise_append.mp hsort).1
  · left; rfl

/-- Witness for `at_most_one_obligation_of_spaced_rolls`: the two roll
dates 2021-01-01 (18628) and 2021-03-01 (18687) are 59 days apart, so the
spacing hypothesis holds and the run keeps at most one open obligation. -/
theorem at_most_one_obligation_witness :
    ([((18628 : ℕ), (100 : ℚ), 1), (18687, 100, 1)]
        = [((18628 : ℕ), (100 : ℚ), 1), (18687, 100, 1)] ++ [] ∧
      List.Pairwise (fun (a b : ℕ × ℚ × ℚ) => a.1 < b.1)
        [(18628, 100, 1), (18687, 100, 1)] ∧
      (∀ a ∈ [((18628 : ℕ), (100 : ℚ), 1), (18687, 100, 1)],
        ∀ b ∈ [((18628 : ℕ), (100 : ℚ), 1), (18687, 100, 1)],
        a.1 ∈ monthly_dates ([((18628 : ℕ), (100 : ℚ), 1), (18687, 100, 1)].map (fun x => x.1)) →
        b.1 ∈ monthly_dates ([((18628 : ℕ), (100 : ℚ), 1), (18687, 100, 1)].map (fun x => x.1)) →
        a.1 < b.1 → a.1 + 30 ≤ b.1)) ∧
    (simFold (fun _ _ _ _ _ => (0 : ℚ))
      (monthly_dates ([((18628 : ℕ), (100 : ℚ), 1), (18687, 100, 1)].map (fun x => x.1)))
      (initState, ([] : List (ℕ × ℚ)))
      [(18628, 100, 1), (18687, 100, 1)]).1.positions.length ≤ 1 :=
  ⟨⟨by simp, by decide, by decide⟩,
    at_most_one_obligation_of_spaced_rolls (fun _ _ _ _ _ => (0 : ℚ))
      [(18628, 100, 1), (18687, 100, 1)] [(18628, 100, 1), (18687, 100, 1)] []
      (by simp) (by decide) (by decide)⟩

/-- C8: at every point of the simulation — after processing any prefix `p`
of the input rows — the share count is 0 or exactly `shares_per_contract`
(100): never negative, never partial, never more than one contract's
cover. -/
theorem shares_zero_or_contract {α : Type} [LinearOrderedField α]
    (premium : α → α → α → α → α → α)
    (rows p s : List (ℕ × α × α)) (_hps : rows = p ++ s) :
    (simFold premium (monthly_dates (rows.map (fun x => x.1)))
      (initState, ([] : List (ℕ × α))) p).1.shares = 0 ∨
    (simFold premium (monthly_dates (rows.map (fun x => x.1)))
      (initState, ([] : List (ℕ × α))) p).1.shares = shares_per_contract :=
  simFold_shares_inv premium (monthly_dates (rows.map (fun x => x.1))) p
    (initState, []) (Or.inl rfl)

/-- Witness for `shares_zero_or_contract` on a one-day run over ℚ. -/
theorem shares_zero_or_contract_witness :
    ([((19024 : ℕ), (100 : ℚ), 1)] = [((19024 : ℕ), (100 : ℚ), 1)] ++ []) ∧
    ((simFold (fun _ _ _ _ _ => (0 : ℚ))
        (monthly_dates ([((19024 : ℕ), (100 : ℚ), 1)].map (fun x => x.1)))
        (initState, ([] : List (ℕ × ℚ))) [(19024, 100, 1)]).1.shares = 0 ∨
      (simFold (fun _ _ _ _ _ => (0 : ℚ))
        (monthly_dates ([((19024 : ℕ), (100 : ℚ), 1)].map (fun x => x.1)))
        (initState, ([] : List (ℕ × ℚ))) [(19024, 100, 1)]).1.shares = shares_per_contract) :=
  ⟨by simp,
    shares_zero_or_contract (fun _ _ _ _ _ => (0 : ℚ))
      [(19024, 100, 1)] [(19024, 100, 1)] [] (by simp)⟩

/-- C2 (code evaluation at the failing input): on the trading-day index
{2022-02-03, 2022-02-04} (serials 19026, 19027) the spec-side first trading
day of February 2022 is 19026, but the script's roll test — membership in
the calendar month-start labels of `resample('MS')` — never fires, so no
call is written in that month at all. -/
theorem roll_skips_month_without_day_one :
    firstTradingDays [19026, 19027] = [19026] ∧
    roll_dates [19026, 19027] = [] ∧
    (runSim (fun _ _ _ _ _ => (0 : ℚ)) [(19026, 100, 1), (19027, 100, 1)]).1.positions = [] := by
  refine ⟨by decide, by decide, by decide⟩

/-- C5: for every non-empty simulated range the first recorded portfolio
value is exactly 0 — the portfolio starts at (cash = 0, shares = 0) and the
mark-to-market of the first day precedes any share acquisition — so the
covered-call total-return computation
`(portfolio_value[-1] - portfolio_value[0]) / portfolio_value[0]`
(src/main.py line 147) always divides by this first sample, i.e. by 0. -/
theorem first_sample_zero {α : Type} [LinearOrderedField α]
    (premium : α → α → α → α → α → α) (rows : List (ℕ × α × α)) (h : rows ≠ []) :
    ((runSim premium rows).2.map (fun x => x.2)).head? = some 0 := by
  obtain ⟨r, rest, rfl⟩ := List.exists_cons_of_ne_nil h
  show ((simFold premium (monthly_dates ((r :: rest).map (fun x => x.1)))
      (initState, []) (r :: rest)).2.map (fun x => x.2)).head? = some 0
  rw [simFold_cons]
  have e2 : dayStep premium (monthly_dates ((r :: rest).map (fun x => x.1)))
      ((initState : SimState α), ([] : List (ℕ × α))) r
      = ((dayStep premium (monthly_dates ((r :: rest).map (fun x => x.1)))
          ((initState : SimState α), ([] : List (ℕ × α))) r).1,
         [(r.1, (0 : α) + 0 * r.2.1)]) := rfl
  rw [e2]
  rw [(simFold_out premium (monthly_dates ((r :: rest).map (fun x => x.1))) rest
      (dayStep premium (monthly_dates ((r :: rest).map (fun x => x.1)))
        ((initState : SimState α), ([] : List (ℕ × α))) r).1
      [(r.1, (0 : α) + 0 * r.2.1)]).2]
  simp

/-- Witness for `first_sample_zero` on a one-day run over ℚ. -/
theorem first_sample_zero_witness :
    ([((0 : ℕ), (1 : ℚ), 1)] ≠ []) ∧
    ((runSim (fun _ _ _ _ _ => (0 : ℚ)) [(0, 1, 1)]).2.map (fun x => x.2)).head? = some 0 :=
  ⟨by simp, first_sample_zero (fun _ _ _ _ _ => (0 : ℚ)) [(0, 1, 1)] (by simp)⟩

/-- C6: the sample recorded on day `i` equals `cash + shares * S_i`
computed from the position-book state as it stood at the start of day `i`
(the state after processing only the first `i` rows): mark-to-market
precedes that day's expiration resolution and roll. -/
theorem mark_before_resolution {α : Type} [LinearOrderedField α]
    (premium : α → α → α → α → α → α) (rows : List (ℕ × α × α))
    (i : ℕ) (h : i < rows.length) :
    (runSim premium rows).2.get? i
      = some ((rows.get ⟨i, h⟩).1,
          (simFold premium (monthly_dates (rows.map (fun x => x.1)))
            (initState, ([] : List (ℕ × α))) (rows.take i)).1.cash
          + (simFold premium (monthly_dates (rows.map (fun x => x.1)))
              (initState, ([] : List (ℕ × α))) (rows.take i)).1.shares
            * (rows.get ⟨i, h⟩).2.1) := by
  exact simFold_get_sample premium (monthly_dates (rows.map (fun x => x.1))) rows initState i h

/-- Witness for `mark_before_resolution`: a one-day run over ℚ, whose
single sample marks the untouched initial state at the day's price 2. -/
theorem mark_before_resolution_witness :
    0 < ([((5 : ℕ), (2 : ℚ), 3)] : List (ℕ × ℚ × ℚ)).length ∧
    (runSim (fun _ _ _ _ _ => (0 : ℚ)) [(5, 2, 3)]).2.get? 0 = some (5, 0) :=
  ⟨by decide, by
    have h := mark_before_resolution (fun _ _ _ _ _ => (0 : ℚ)) [(5, 2, 3)] 0 (by decide)
    simpa [simFold_nil, initState] using h⟩

/-- C4 (code evaluation at the failing input): with a zero elapsed period
(`days = 0`, hence `years == 0`) the script's annualized-return computation
raises an uncaught `ZeroDivisionError` from `1 / years` instead of
reporting an undefined (NaN) metric. -/
theorem annualized_return_raises_on_zero_years :
    annualized_return 0 0 = Except.error ("ZeroDivisionError: float division by zero") := by
  rw [annualized_return]
  norm_num

/-- C7: the expiration pass resolves exactly the due obligations.  With at
most one open obligation (the regime the spec describes): due obligations
are removed and future ones kept (first and third/fourth conjuncts); if
nothing is due the pass is a complete no-op (second conjunct); a due
in-the-money obligation is exercised, `cash += shares * strike` and
`shares := 0` (fifth conjunct); a due out-of-the-money obligation lapses
with cash and shares untouched (sixth conjunct). -/
theorem resolve_expirations_spec {α : Type} [LinearOrderedField α]
    (current_date : ℕ) (S : α) (st : SimState α) (h : st.positions.length ≤ 1) :
    (resolveStep current_date S st).positions
        = st.positions.filter (fun p => decide (current_date < p.expiration_date)) ∧
    ((∀ p ∈ st.positions, current_date < p.expiration_date) →
        resolveStep current_date S st = st) ∧
    (∀ p ∈ st.positions, p.expiration_date ≤ current_date →
        p ∉ (resolveStep current_date S st).positions) ∧
    (∀ p ∈ st.positions, current_date < p.expiration_date →
        p ∈ (resolveStep current_date S st).positions) ∧
    (∀ p ∈ st.positions, p.expiration_date ≤ current_date → S > p.K →
        (resolveStep current_date S st).cash = st.cash + st.shares * p.K ∧
        (resolveStep current_date S st).shares = 0) ∧
    (∀ p ∈ st.positions, p.expiration_date ≤ current_date → ¬ S > p.K →
        (resolveStep current_date S st).cash = st.cash ∧
        (resolveStep current_date S st).shares = st.shares) := by
  obtain ⟨c, sh, ps⟩ := st
  rcases ps with _ | ⟨p, ps'⟩
  · refine ⟨?_, ?_, ?_, ?_, ?_, ?_⟩ <;> simp [resolveStep, resolveUpdate, List.diff]
  · have hnil : ps' = [] := by
      have h0 : ps'.length = 0 := by simpa using h
      exact List.length_eq_zero.mp h0
    subst hnil
    have hpos := resolveStep_positions current_date S ⟨c, sh, [p]⟩
    by_cases hdue : p.expiration_date ≤ current_date
    · have hfilter : ([p].filter (fun q => decide (current_date < q.expiration_date))) = [] := by
        have hf : (decide (current_date < p.expiration_date)) = false := by
          simp only [decide_eq_false_iff_not]
          omega
        simp [hf]
      by_cases hitm : S > p.K
      · have hcond : current_date ≥ p.expiration_date ∧ S > p.K := ⟨hdue, hitm⟩
        have hcash : (resolveStep current_date S ⟨c, sh, [p]⟩).cash = c + sh * p.K := by
          simp [resolveStep, resolveUpdate, hcond]
        have hsh : (resolveStep current_date S ⟨c, sh, [p]⟩).shares = 0 := by
          simp [resolveStep, resolveUpdate, hcond]
        refine ⟨hpos, ?_, ?_, ?_, ?_, ?_⟩
        · intro hall
          exact absurd (hall p (List.mem_singleton_self p)) (by omega)
        · intro q _ _
          rw [hpos, hfilter]
          simp
        · intro q hq hlt
          rw [List.mem_singleton] at hq
          subst hq
          omega
        · intro q hq _ _
          rw [List.mem_singleton] at hq
          subst hq
          exact ⟨hcash, hsh⟩
        · intro q hq _ hqotm
          rw [List.mem_singleton] at hq
          subst hq
          exact absurd hitm hqotm
      · have hcond : ¬(current_date ≥ p.expiration_date ∧ S > p.K) := fun hc => hitm hc.2
        have hcash : (resolveStep current_date S ⟨c, sh, [p]⟩).cash = c := by
          simp [resolveStep, resolveUpdate, hcond]
        have hsh : (resolveStep current_date S ⟨c, sh, [p]⟩).shares = sh := by
          simp [resolveStep, resolveUpdate, hcond]
        refine ⟨hpos, ?_, ?_, ?_, ?_, ?_⟩
        · intro hall
          exact absurd (hall p (List.mem_singleton_self p)) (by omega)
        · intro q _ _
          rw [hpos, hfilter]
          simp
        · intro q hq hlt
          rw [List.mem_singleton] at hq
          subst hq
          omega
        · intro q hq hqdue hqitm
          rw [List.mem_singleton] at hq
          subst hq
          exact absurd hqitm hitm
        · intro q hq _ _
          rw [List.mem_singleton] at hq
          subst hq
          exact ⟨hcash, hsh⟩
    · have hlt : current_date < p.expiration_date := by omega
      have hfilter : ([p].filter (fun q => decide (current_date < q.expiration_date))) = [p] := by
        simp [hlt]
      have hcond : ¬(current_date ≥ p.expiration_date ∧ S > p.K) := fun hc => hdue hc.1
      have hcash : (resolveStep current_date S ⟨c, sh, [p]⟩).cash = c := by
        simp [resolveStep, resolveUpdate, hcond]
      have hsh : (resolveStep current_date S ⟨c, sh, [p]⟩).shares = sh := by
        simp [resolveStep, resolveUpdate, hcond]
      have hfull : resolveStep current_date S ⟨c, sh, [p]⟩ = ⟨c, sh, [p]⟩ := by
        have heta : resolveStep current_date S ⟨c, sh, [p]⟩
            = ⟨(resolveStep current_date S ⟨c, sh, [p]⟩).cash,
               (resolveStep current_date S ⟨c, sh, [p]⟩).shares,
               (resolveStep current_date S ⟨c, sh, [p]⟩).positions⟩ := rfl
        rw [heta, hcash, hsh, hpos, hfilter]
      refine ⟨hpos, fun _ => hfull, ?_, ?_, ?_, ?_⟩
      · intro q hq hqdue
        rw [List.mem_singleton] at hq
        subst hq
        omega
      · intro q hq _
        rw [List.mem_singleton] at hq
        subst hq
        rw [hpos, hfilter]
        exact List.mem_singleton_self q
      · intro q hq hqdue _
        rw [List.mem_singleton] at hq
        subst hq
        omega
      · intro q hq hqdue _
        rw [List.mem_singleton] at hq
        subst hq
        omega

/-- C3 (code evaluation at the failing input): a constant 32-day price
series produces a simulated range of two rows whose volatility is exactly
0, the first of which (2021-02-01, serial 18659) is a roll date.  The
engine has no guard: it passes `sigma = 0` straight into
`black_scholes_call` (whose `d1` divides by `sigma * sqrt(T)` — NaN in
floating point) and adds the resulting premium times the contract size to
the cash balance; the run completes normally, no error is raised.  The
final cash is exactly the share purchase plus the degenerate premium, for
every possible `cdf`. -/
theorem zero_sigma_premium_added_unguarded (cdf : ℝ → ℝ) :
    simInput window_size constPrices = [(18659, 100, 0), (18660, 100, 0)] ∧
    (runSim (black_scholes_call cdf) (simInput window_size constPrices)).1.cash
      = black_scholes_call cdf 100 (100 * 1.05) (30 / 252) risk_free_rate 0
          * shares_per_contract - shares_per_contract * 100 := by
  have hps2 : constPrices.map (fun x => x.2) = List.replicate 32 (100 : ℝ) := by
    unfold constPrices
    rw [List.map_map]
    show (List.range 32).map (fun _ => (100 : ℝ)) = _
    rw [List.map_const', List.length_range]
  have hrets : logReturns (List.replicate 32 (100 : ℝ)) = List.replicate 31 0 := by
    unfold logReturns
    show ((List.replicate 32 (100 : ℝ)).zip (List.replicate 31 (100 : ℝ))).map
        (fun q => Real.log (q.2 / q.1)) = _
    rw [zip_replicate_min, List.map_replicate]
    norm_num [Real.log_one]
  have hslid : slidings window_size (List.replicate 31 (0 : ℝ))
      = List.replicate 2 (List.replicate 30 0) := by
    have h := slidings_replicate 30 (by norm_num) (0 : ℝ) 31
    simpa [window_size] using h
  have hdrop : constPrices.drop window_size = [(18659, (100 : ℝ)), (18660, 100)] := by
    unfold constPrices
    rw [← List.map_drop]
    have hr : (List.range 32).drop 30 = [30, 31] := by decide
    show ((List.range 32).drop window_size).map (fun i => (18629 + i, (100 : ℝ))) = _
    rw [show window_size = 30 from rfl, hr]
    norm_num
  have hsi : simInput window_size constPrices = [(18659, 100, 0), (18660, 100, 0)] := by
    simp only [simInput]
    rw [hps2, hrets, hslid, List.map_replicate, sampleStd_replicate_zero, zero_mul, hdrop]
    rfl
  refine ⟨hsi, ?_⟩
  rw [hsi]
  have hm1 : (18659 : ℕ) ∈ monthly_dates [18659, 18660] := by decide
  have hm2 : ¬ (18660 : ℕ) ∈ monthly_dates [18659, 18660] := by decide
  show (simFold (black_scholes_call cdf)
      (monthly_dates ([((18659 : ℕ), (100 : ℝ), 0), (18660, 100, 0)].map (fun x => x.1)))
      (initState, []) [(18659, 100, 0), (18660, 100, 0)]).1.cash = _
  rw [simFold_cons, simFold_cons, simFold_nil]
  norm_num [hm1, hm2, dayStep, resolveStep, resolveUpdate, rollStep, initState]
  ring

/-- C9: for positive spot, strike, tenor and volatility the code's
`black_scholes_call` returns exactly the closed-form premium
`S*Phi(d1) - K*e^(-rT)*Phi(d2)` of the spec, with `Phi` the (external)
standard normal CDF passed as `cdf`.  Purity in the five arguments is
intrinsic to the embedding: the value is a function of the arguments
alone. -/
theorem black_scholes_matches_spec (cdf : ℝ → ℝ) (S K T r sigma : ℝ)
    (_hS : 0 < S) (_hK : 0 < K) (_hT : 0 < T) (_hsigma : 0 < sigma) :
    black_scholes_call cdf S K T r sigma = bs_spec_formula cdf S K T r sigma := by
  unfold black_scholes_call bs_spec_formula
  rw [neg_mul]

/-- Witness for `black_scholes_matches_spec` at S = K = T = sigma = 1,
r = 0. -/
theorem black_scholes_matches_spec_witness :
    ((0 : ℝ) < 1 ∧ (0 : ℝ) < 1 ∧ (0 : ℝ) < 1 ∧ (0 : ℝ) < 1) ∧
    black_scholes_call (fun x => x) 1 1 1 0 1 = bs_spec_formula (fun x => x) 1 1 1 0 1 :=
  ⟨⟨by norm_num, by norm_num, by norm_num, by norm_num⟩,
    black_scholes_matches_spec (fun x => x) 1 1 1 0 1
      (by norm_num) (by norm_num) (by norm_num) (by norm_num)⟩

/-- C10: with fewer than `W + 1` price points the estimator's output is
empty and the engine's portfolio-value series is empty — a valid degenerate
terminal state, not an exception (every embedded function is total);
otherwise exactly the first `W` price dates are excluded and the engine's
input carries precisely the remaining dates. -/
theorem warmup_window_exclusion (premium : ℝ → ℝ → ℝ → ℝ → ℝ → ℝ)
    (prices : List (ℕ × ℝ)) :
    (prices.length < window_size + 1 →
        simInput window_size prices = [] ∧
        (runSim premium (simInput window_size prices)).2 = []) ∧
    (window_size + 1 ≤ prices.length →
        (simInput window_size prices).map (fun x => x.1)
          = (prices.drop window_size).map (fun x => x.1) ∧
        (simInput window_size prices).length = prices.length - window_size) := by
  constructor
  · intro h
    have he : simInput window_size prices = [] := by
      simp [simInput, List.drop_eq_nil_of_le (show prices.length ≤ window_size by omega)]
    exact ⟨he, by rw [he]; rfl⟩
  · intro h
    have hrets : (logReturns (prices.map (fun x => x.2))).length = prices.length - 1 := by
      rw [logReturns_length, List.length_map]
    have hvols : ((slidings window_size (logReturns (prices.map (fun x => x.2)))).map
        (fun w => sampleStd w * Real.sqrt 252)).length = prices.length - window_size := by
      rw [List.length_map, slidings_length window_size (by norm_num [window_size]), hrets]
      omega
    have h1 : (((prices.drop window_size).zip
        ((slidings window_size (logReturns (prices.map (fun x => x.2)))).map
          (fun w => sampleStd w * Real.sqrt 252))).map Prod.fst) = prices.drop window_size := by
      apply List.map_fst_zip
      rw [List.length_drop, hvols]
    constructor
    · show (((prices.drop window_size).zip
          ((slidings window_size (logReturns (prices.map (fun x => x.2)))).map
            (fun w => sampleStd w * Real.sqrt 252))).map
            (fun x => (x.1.1, x.1.2, x.2))).map (fun x => x.1)
        = (prices.drop window_size).map (fun x => x.1)
      conv_rhs => rw [← h1]
      rw [List.map_map, List.map_map]
      rfl
    · show (((prices.drop window_size).zip
          ((slidings window_size (logReturns (prices.map (fun x => x.2)))).map
            (fun w => sampleStd w * Real.sqrt 252))).map
            (fun x => (x.1.1, x.1.2, x.2))).length = prices.length - window_size
      rw [List.length_map, List.length_zip, List.length_drop, hvols, Nat.min_self]

/-- Witness for `warmup_window_exclusion`: a 1-point series (short branch)
and a 31-point series (exact warm-up branch, one surviving row). -/
theorem warmup_window_exclusion_witness :
    (([((0 : ℕ), (100 : ℝ))] : List (ℕ × ℝ)).length < window_size + 1 ∧
      simInput window_size [((0 : ℕ), (100 : ℝ))] = [] ∧
      (runSim (fun _ _ _ _ _ => (0 : ℝ)) (simInput window_size [((0 : ℕ), (100 : ℝ))])).2 = []) ∧
    (window_size + 1 ≤ ((List.range 31).map (fun i => (i, (100 : ℝ)))).length ∧
      (simInput window_size ((List.range 31).map (fun i => (i, (100 : ℝ))))).map (fun x => x.1)
        = (((List.range 31).map (fun i => (i, (100 : ℝ)))).drop window_size).map (fun x => x.1) ∧
      (simInput window_size ((List.range 31).map (fun i => (i, (100 : ℝ))))).length
        = ((List.range 31).map (fun i => (i, (100 : ℝ)))).length - window_size) := by
  constructor
  · have h : ([((0 : ℕ), (100 : ℝ))] : List (ℕ × ℝ)).length < window_size + 1 := by
      simp [window_size]
    exact ⟨h, (warmup_window_exclusion (fun _ _ _ _ _ => (0 : ℝ)) [((0 : ℕ), (100 : ℝ))]).1 h⟩
  · have h : window_size + 1 ≤ ((List.range 31).map (fun i => (i, (100 : ℝ)))).length := by
      simp [window_size]
    exact ⟨h, (warmup_window_exclusion (fun _ _ _ _ _ => (0 : ℝ))
      ((List.range 31).map (fun i => (i, (100 : ℝ))))).2 h⟩

/-- Witness for `resolve_expirations_spec`: a due, in-the-money obligation
(strike 3, expiring day 10, resolved on day 12 at price 4) is exercised:
cash goes from 5 to `5 + 100 * 3` and the 100 shares are called away. -/
theorem resolve_expirations_spec_witness :
    ((⟨5, 100, [⟨10, 3⟩]⟩ : SimState ℚ).positions.length ≤ 1) ∧
    ((resolveStep 12 (4 : ℚ) ⟨5, 100, [⟨10, 3⟩]⟩).cash = 5 + 100 * 3 ∧
     (resolveStep 12 (4 : ℚ) ⟨5, 100, [⟨10, 3⟩]⟩).shares = 0) :=
  ⟨by decide,
    (resolve_expirations_spec 12 (4 : ℚ) ⟨5, 100, [⟨10, 3⟩]⟩ (by decide)).2.2.2.2.1
      ⟨10, 3⟩ (by simp) (by norm_num) (by norm_num)⟩

end CoveredCall
